import Mathlib

/-!
# Header composition of the Power beta Go SDK (`common/headers.go`)

A shallow embedding of the package `common`: the derivation of the `ID` header
from an operation identifier (`pascalToLowerWithDot`), the `User-Agent` string
(`GetUserAgentInfo`, `GetSystemInfo`) and the header map built by `GetSdkHeaders`.

Modelling decisions.

* Strings.  `pascalToLowerWithDot` reads its argument only through
  `for i, char := range input`, which visits the code points of the string in
  order (an ill-formed byte is visited as U+FFFD), and it writes only through
  `strings.Builder`, which holds well-formed UTF-8.  A string is therefore
  embedded as a Lean `String`, the sequence of its code points; the byte offset
  `i` of the loop is carried along as the sum of the UTF-8 widths already read.
* `unicode.IsUpper` and `unicode.ToLower` belong to the Go standard library.
  Their explicit ranges (Latin-1 for `IsUpper`, ASCII for `ToLower`) are
  embedded concretely; what they look up in the Unicode tables beyond those
  ranges is a parameter (`CaseTables`).
* The constant `Version` of the package and the values of `runtime.GOARCH`,
  `runtime.GOOS` and `runtime.Version()` are parameters (`Runtime`).
* A `map[string]string` is an association list without repeated keys;
  `m[k] = v` is `GoMap.set`, `m[k]` is `GoMap.get?`.
-/

namespace common

/-! ## The Go library pieces the package uses -/

/-- What `unicode.IsUpper` and `unicode.ToLower` read from the Unicode tables
outside their explicit ranges: `upper r` is membership of `r` in `unicode.Upper`,
`toLowerCase r` is `unicode.To(unicode.LowerCase, r)`. -/
structure CaseTables where
  upper : Char → Bool
  toLowerCase : Char → Char

/-- The entries of the table `properties` of package `unicode` that carry the
flag `pLu`: the upper case letters of Latin-1. -/
def latin1Upper (r : Char) : Bool :=
  (0x41 ≤ r.toNat && r.toNat ≤ 0x5A) || (0xC0 ≤ r.toNat && r.toNat ≤ 0xD6) ||
    (0xD8 ≤ r.toNat && r.toNat ≤ 0xDE)

/-- Go `unicode.IsUpper`: the rune is an upper case letter.  Runes up to
`MaxLatin1` are answered from `properties`, the others from the tables. -/
def IsUpper (T : CaseTables) (r : Char) : Bool :=
  if r.toNat ≤ 0xFF then latin1Upper r else T.upper r

/-- Go `unicode.ToLower`: runes up to `MaxASCII` are mapped by
`r += 'a' - 'A'` when `'A' <= r && r <= 'Z'` and returned unchanged otherwise;
the others are mapped through the tables. -/
def ToLower (T : CaseTables) (r : Char) : Char :=
  if r.toNat ≤ 0x7F then
    if 'A'.toNat ≤ r.toNat ∧ r.toNat ≤ 'Z'.toNat then Char.ofNat (r.toNat + ('a'.toNat - 'A'.toNat))
    else r
  else T.toLowerCase r

/-- Go `utf8.RuneLen` on a code point: the number of bytes of its encoding,
which is the step of the byte offset in a `range` loop over a string. -/
def RuneLen (r : Char) : Nat :=
  if r.toNat < 0x80 then 1
  else if r.toNat < 0x800 then 2
  else if r.toNat < 0x10000 then 3
  else 4

/-- The verbs of `fmt.Sprintf` used by the package: `%s` is replaced by the
next operand, `%%` by a percent sign, every other character is copied.  A `%s`
without operand prints `%!s(MISSING)` as in Go. -/
def sprintfAux : List Char → List String → List Char
  | [], _ => []
  | '%' :: 's' :: fmt, a :: args => a.data ++ sprintfAux fmt args
  | '%' :: 's' :: fmt, [] => "%!s(MISSING)".data ++ sprintfAux fmt []
  | '%' :: '%' :: fmt, args => '%' :: sprintfAux fmt args
  | c :: fmt, args => c :: sprintfAux fmt args

/-- Go `fmt.Sprintf` restricted to string operands. -/
def Sprintf (format : String) (args : List String) : String :=
  ⟨sprintfAux format.data args⟩

/-- A Go `map[string]string`. -/
abbrev GoMap := List (String × String)

/-- Go `make(map[string]string)`. -/
def GoMap.make : GoMap := []

/-- Go `m[k] = v`: the entry of `k` is replaced, or added when absent. -/
def GoMap.set : GoMap → String → String → GoMap
  | [], k, v => [(k, v)]
  | (k', v') :: rest, k, v =>
    if k' = k then (k, v) :: rest else (k', v') :: GoMap.set rest k v

/-- Go `v, ok := m[k]`. -/
def GoMap.get? : GoMap → String → Option String
  | [], _ => none
  | (k', v') :: rest, k => if k' = k then some v' else GoMap.get? rest k

/-- The keys present in a map. -/
def GoMap.keys (m : GoMap) : List String := m.map Prod.fst

/-! ## Package `common` -/

/-- The values the package initialisers read from outside `headers.go`. -/
structure Runtime where
  /-- the package constant `Version` -/
  Version : String
  /-- `runtime.GOARCH` -/
  GOARCH : String
  /-- `runtime.GOOS` -/
  GOOS : String
  /-- `runtime.Version()` -/
  runtimeVersion : String

def sdkName : String := "power-beta-go-sdk"

def headerNameUserAgent : String := "User-Agent"

/-- The package variable `systemInfo`. -/
def systemInfo (rt : Runtime) : String :=
  Sprintf "(lang=go; arch=%s; os=%s; go.version=%s)" [rt.GOARCH, rt.GOOS, rt.runtimeVersion]

def GetSystemInfo (rt : Runtime) : String := systemInfo rt

/-- The package variable `userAgent`. -/
def userAgent (rt : Runtime) : String :=
  Sprintf "%s/%s %s" [sdkName, rt.Version, GetSystemInfo rt]

def GetUserAgentInfo (rt : Runtime) : String := userAgent rt

/-- The loop of `pascalToLowerWithDot`: `i` is the byte offset of `char`,
`result` the contents of the builder. -/
def pascalLoop (T : CaseTables) : Nat → List Char → String → String
  | _, [], result => result
  | i, char :: rest, result =>
    let result := if i > 0 && IsUpper T char then result ++ "." else result
    let result := result.push (ToLower T char)
    pascalLoop T (i + RuneLen char) rest result

def pascalToLowerWithDot (T : CaseTables) (input : String) : String :=
  pascalLoop T 0 input.data ""

def GetSdkHeaders (T : CaseTables) (rt : Runtime)
    (serviceName : String) (serviceVersion : String) (operationId : String) : GoMap :=
  let sdkHeaders := GoMap.make
  let sdkHeaders := sdkHeaders.set headerNameUserAgent (GetUserAgentInfo rt)
  let sdkHeaders := sdkHeaders.set "ID" (pascalToLowerWithDot T operationId)
  let sdkHeaders := sdkHeaders.set "scheme" "http"
  sdkHeaders

/-! ## Reference definitions, written from the specification -/

/-- Reference, first pass, after the first character: a `.` is inserted before
every upper case letter. -/
def insertDotsTail (T : CaseTables) : List Char → List Char
  | [] => []
  | c :: rest =>
    if IsUpper T c then '.' :: c :: insertDotsTail T rest else c :: insertDotsTail T rest

/-- Reference, first pass: a `.` is inserted before every character that is an
upper case letter and is not the first character. -/
def insertDots (T : CaseTables) : List Char → List Char
  | [] => []
  | c :: rest => c :: insertDotsTail T rest

/-- Reference, second pass: every character is lowercased. -/
def lowercaseAll (T : CaseTables) (s : List Char) : List Char := s.map (ToLower T)

/-- The two-pass reference for the `ID` header. -/
def deriveHeaderIDRef (T : CaseTables) (s : String) : String :=
  ⟨lowercaseAll T (insertDots T s.data)⟩

/-- The User-Agent template as the specification words it, with the key
`runtime-version=` for the last field. -/
def specUserAgent (rt : Runtime) : String :=
  sdkName ++ "/" ++ rt.Version ++ " (lang=go; arch=" ++ rt.GOARCH ++ "; os=" ++ rt.GOOS ++
    "; runtime-version=" ++ rt.runtimeVersion ++ ")"

/-- The SDK-name component of a User-Agent: the text before its first `/`. -/
def sdkNameComponent (ua : String) : String :=
  ⟨ua.data.takeWhile (fun c => c != '/')⟩

/-- Tables that hold nothing: no rune beyond Latin-1 is upper case and no rune
beyond ASCII has a lower case form of its own. -/
def CaseTables.none : CaseTables := ⟨fun _ => false, fun c => c⟩

/-- An excerpt of the Unicode tables of Go: the range `{0x1d400, 0x1d419, 1}` of
`unicode.Upper` (MATHEMATICAL BOLD CAPITAL A to Z), runes for which
`unicode.CaseRanges` has no entry, so that `unicode.To` returns them unchanged. -/
def CaseTables.mathBold : CaseTables :=
  ⟨fun r => 0x1D400 ≤ r.toNat && r.toNat ≤ 0x1D419, fun r => r⟩

/-- An upper case ASCII letter, `A` to `Z`. -/
def asciiUpper (c : Char) : Bool := 0x41 ≤ c.toNat && c.toNat ≤ 0x5A

/-- The character-wise lowercasing of a string. -/
def lowercase (T : CaseTables) (s : String) : String := ⟨lowercaseAll T s.data⟩

/-- A string with every `.` deleted. -/
def deleteDots (s : String) : String := ⟨s.data.filter (fun c => c != '.')⟩

/-- The number of `.` characters of a string. -/
def countDots (s : String) : Nat := s.data.count '.'

/-- The concatenation of a list of words. -/
def concatWords : List String → String
  | [] => ""
  | w :: ws => w ++ concatWords ws

/-- The words of a list joined by `.`. -/
def joinWithDot : List String → String
  | [] => ""
  | [w] => w
  | w :: w2 :: ws => w ++ "." ++ joinWithDot (w2 :: ws)

/-- A word of a PascalCase identifier: one upper case ASCII letter followed by
ASCII characters that are not upper case letters. -/
def isPascalWord (w : String) : Bool :=
  match w.data with
  | [] => false
  | c :: rest => asciiUpper c && rest.all (fun d => decide (d.toNat ≤ 0x7F) && !asciiUpper d)

/-! ## The package as a state machine -/

/-- The package variables of `headers.go`. -/
structure Globals where
  userAgent : String
  systemInfo : String

/-- Package initialisation: `systemInfo` is initialised first, since the
initialiser of `userAgent` reads it through `GetSystemInfo()`. -/
def Globals.init (rt : Runtime) : Globals :=
  ⟨common.userAgent rt, common.systemInfo rt⟩

/-- A call of one of the functions of the package. -/
inductive Call where
  | GetSdkHeaders (serviceName serviceVersion operationId : String)
  | GetUserAgentInfo
  | GetSystemInfo
  | pascalToLowerWithDot (input : String)

/-- What a call returns: a header map or a string. -/
inductive Value where
  | headers (m : GoMap)
  | string (s : String)
  deriving DecidableEq

/-- One call on the package variables `g`: the value returned and the package
variables after the call.  The bodies are those of `headers.go`, with the
variables read from `g`; none of them assigns to a package variable. -/
def Call.exec (T : CaseTables) (g : Globals) : Call → Value × Globals
  | .GetSdkHeaders _ _ operationId =>
    let sdkHeaders := GoMap.make
    let sdkHeaders := sdkHeaders.set headerNameUserAgent g.userAgent
    let sdkHeaders := sdkHeaders.set "ID" (common.pascalToLowerWithDot T operationId)
    let sdkHeaders := sdkHeaders.set "scheme" "http"
    (.headers sdkHeaders, g)
  | .GetUserAgentInfo => (.string g.userAgent, g)
  | .GetSystemInfo => (.string g.systemInfo, g)
  | .pascalToLowerWithDot input => (.string (common.pascalToLowerWithDot T input), g)

/-- A sequence of calls in one process: the values returned, in order, and the
package variables at the end. -/
def run (T : CaseTables) : Globals → List Call → List Value × Globals
  | g, [] => ([], g)
  | g, c :: rest =>
    let r := c.exec T g
    let rs := run T r.2 rest
    (r.1 :: rs.1, rs.2)

end common

namespace powervsv1

/-! ## The service client, modelled from the specification

`powervs_v1.go`, which holds the service client and its operation methods, is
not among the sources; its integration test is.  The definitions of this
section follow sections 3, 4.2 and 7 of the specification, and the test for the
shape of the calls.  The wait between two attempts is not modelled. -/

/-- Modelled from the spec: one field of a Request Options value, the option
structs of `powervs_v1.go` being absent.  `value` is `none` for a nil field. -/
structure OptionField where
  name : String
  required : Bool
  value : Option String

/-- Modelled from the spec: a field is present when it is non-nil and
non-empty. -/
def OptionField.present (f : OptionField) : Bool :=
  match f.value with
  | none => false
  | some v => v != ""

/-- Modelled from the spec: a Request Options value, the fields of one option
struct of `powervs_v1.go`. -/
abbrev RequestOptions := List OptionField

/-- Modelled from the spec: input validation of an operation method of
`powervs_v1.go`, the name of the first required field that is missing. -/
def missingRequired (opts : RequestOptions) : Option String :=
  (opts.find? (fun f => f.required && !f.present)).map (fun f => f.name)

/-- Modelled from the spec: the description of one operation method of
`powervs_v1.go`: its identifier, its expected success status code, and whether
the method declares a decoded result next to the response and the error. -/
structure Operation where
  operationId : String
  successCode : Nat
  declaresResult : Bool

/-- Modelled from the spec: the body of a response, as the decoding of an
operation method of `powervs_v1.go` sees it: well-formed for the result type,
shaped as an error payload (message, code), or anything else. -/
inductive Body where
  | wellFormed (content : String)
  | errorShaped (message : String) (code : String)
  | other (raw : String)
  deriving DecidableEq

/-- Modelled from the spec: the response envelope returned by the operation
methods of `powervs_v1.go`; the test reads its `StatusCode`. -/
structure DetailedResponse where
  StatusCode : Nat
  body : Body
  deriving DecidableEq

/-- Modelled from the spec: the error taxonomy of section 7 for the operation
methods of `powervs_v1.go`. -/
inductive SdkError where
  | ValidationError (field : String)
  | NetworkError
  | APIError (status : Nat) (payload : Option (String × String))
  | DecodeError
  deriving DecidableEq

/-- Modelled from the spec: what the transport under `powervs_v1.go` answers to
one request: a transport-level failure or a response. -/
inductive Answer where
  | networkFailure
  | response (r : DetailedResponse)
  deriving DecidableEq

/-- Modelled from the spec: a mock transport under `powervs_v1.go`, scripted by
the number of requests it has already received. -/
abbrev Transport := Nat → Answer

/-- Modelled from the spec: the service client `PowervsV1` of `powervs_v1.go`:
base URL, retry settings and the set of retryable status codes. -/
structure PowervsV1 where
  URL : String
  retriesEnabled : Bool
  maxRetries : Nat
  maxRetryInterval : Nat
  retryableStatus : List Nat

/-- Modelled from the spec: `EnableRetries(maxRetries, maxInterval)` of
`powervs_v1.go`, which the test calls as `EnableRetries(4, 30*time.Second)`. -/
def PowervsV1.EnableRetries (c : PowervsV1) (maxRetries maxRetryInterval : Nat) : PowervsV1 :=
  ⟨c.URL, true, maxRetries, maxRetryInterval, c.retryableStatus⟩

/-- Modelled from the spec: what an operation method of `powervs_v1.go` hands
back: decoded result, response envelope and error, each possibly absent,
together with the number of requests the transport has received. -/
structure CallReturn where
  result : Option String
  response : Option DetailedResponse
  err : Option SdkError
  requests : Nat
  deriving DecidableEq

/-- Modelled from the spec: decoding in an operation method of `powervs_v1.go`.
On the expected success code the body is decoded into the declared result; on
any other code it is decoded as an API error, returned with the envelope; a
transport failure gives a network error without envelope. -/
def conclude (op : Operation) (a : Answer) (requests : Nat) : CallReturn :=
  match a with
  | .networkFailure => ⟨none, none, some .NetworkError, requests⟩
  | .response r =>
    if r.StatusCode = op.successCode then
      if op.declaresResult then
        match r.body with
        | .wellFormed content => ⟨some content, some r, none, requests⟩
        | _ => ⟨none, some r, some .DecodeError, requests⟩
      else ⟨none, some r, none, requests⟩
    else
      match r.body with
      | .errorShaped message code =>
        ⟨none, some r, some (.APIError r.StatusCode (some (message, code))), requests⟩
      | _ => ⟨none, some r, some (.APIError r.StatusCode none), requests⟩

/-- Modelled from the spec: the failures the invoker under `powervs_v1.go`
retries: transport failures and non-success status codes of the retryable
set. -/
def retryable (c : PowervsV1) (op : Operation) : Answer → Bool
  | .networkFailure => true
  | .response r => r.StatusCode != op.successCode && c.retryableStatus.contains r.StatusCode

/-- Modelled from the spec: the shared invoker under `powervs_v1.go`.  `budget`
is the number of retries left, `sent` the number of requests already sent.  A
retryable failure is sent again while the budget lasts; every other answer, and
the answer that exhausts the budget, ends the call. -/
def invoke (c : PowervsV1) (op : Operation) (t : Transport) : Nat → Nat → CallReturn
  | 0, sent => conclude op (t sent) (sent + 1)
  | budget + 1, sent =>
    if retryable c op (t sent) then invoke c op t budget (sent + 1)
    else conclude op (t sent) (sent + 1)

/-- Modelled from the spec: an operation method of `powervs_v1.go`: validate
the required fields, failing before any request is sent, then hand the request
to the invoker with the retry budget of the client. -/
def call (c : PowervsV1) (op : Operation) (opts : RequestOptions) (t : Transport) :
    CallReturn :=
  match missingRequired opts with
  | some field => ⟨none, none, some (.ValidationError field), 0⟩
  | none => invoke c op t (if c.retriesEnabled then c.maxRetries else 0) 0

/-- Modelled from the spec: the operation `ServiceBrokerHealthHead` of
`powervs_v1.go`; its test receives `response, err` only and expects status
200. -/
def ServiceBrokerHealthHead : Operation := ⟨"ServiceBrokerHealthHead", 200, false⟩

/-- Modelled from the spec: the operation `ServiceBrokerAuthDeviceTokenPost` of
`powervs_v1.go`; its test receives `token, response, err` and expects status
200. -/
def ServiceBrokerAuthDeviceTokenPost : Operation :=
  ⟨"ServiceBrokerAuthDeviceTokenPost", 200, true⟩

/-- Modelled from the spec: the operation `PcloudV2VolumesPost` of
`powervs_v1.go`; its test receives `volumes, response, err` and expects status
201. -/
def PcloudV2VolumesPost : Operation := ⟨"PcloudV2VolumesPost", 201, true⟩

/-- Modelled from the spec: a service client as the constructors of
`powervs_v1.go` leave it, with retries disabled; 429 and 503 are the retryable
status codes the specification names. -/
def defaultClient (URL : String) : PowervsV1 := ⟨URL, false, 0, 0, [429, 503]⟩

end powervsv1

namespace common

/-! ## Lemmas on the library pieces -/

theorem RuneLen_pos (r : Char) : 0 < RuneLen r := by
  unfold RuneLen
  split_ifs <;> omega

theorem ToLower_dot (T : CaseTables) : ToLower T '.' = '.' := by
  simp [ToLower]

theorem IsUpper_ascii (T T' : CaseTables) (r : Char) (h : r.toNat ≤ 0x7F) :
    IsUpper T r = IsUpper T' r := by
  have h' : r.toNat ≤ 0xFF := by omega
  simp [IsUpper, h']

theorem ToLower_ascii (T T' : CaseTables) (r : Char) (h : r.toNat ≤ 0x7F) :
    ToLower T r = ToLower T' r := by
  simp [ToLower, h]

/-! ## The loop of `pascalToLowerWithDot` -/

/-- Past the first byte the loop appends, to what the builder holds, the
lowercased characters with a `.` before each upper case one. -/
theorem pascalLoop_data (T : CaseTables) (cs : List Char) :
    ∀ (i : Nat) (result : String), 0 < i →
      (pascalLoop T i cs result).data
        = result.data ++ lowercaseAll T (insertDotsTail T cs) := by
  induction cs with
  | nil => intro i result _; simp [pascalLoop, insertDotsTail, lowercaseAll]
  | cons c cs ih =>
    intro i result hi
    have hi' : 0 < i + RuneLen c := by omega
    rw [pascalLoop]
    rw [ih _ _ hi']
    cases hU : IsUpper T c
    · simp [hi, insertDotsTail, hU, lowercaseAll]
    · simp [hi, insertDotsTail, hU, lowercaseAll, ToLower_dot]

/-- The loop reads only the ASCII ranges of `IsUpper` and `ToLower` on an
ASCII string, so its result does not depend on the tables. -/
theorem pascalLoop_ascii (T T' : CaseTables) (cs : List Char) :
    ∀ (i : Nat) (result : String), (∀ c ∈ cs, c.toNat ≤ 0x7F) →
      pascalLoop T i cs result = pascalLoop T' i cs result := by
  induction cs with
  | nil => intro i result _; simp [pascalLoop]
  | cons c cs ih =>
    intro i result h
    have hc : c.toNat ≤ 0x7F := h c (List.mem_cons_self _ _)
    rw [pascalLoop, pascalLoop]
    rw [IsUpper_ascii T T' c hc, ToLower_ascii T T' c hc]
    exact ih _ _ (fun d hd => h d (List.mem_cons_of_mem _ hd))

theorem pascalToLowerWithDot_ascii (T T' : CaseTables) (s : String)
    (h : s.data.all (fun c => decide (c.toNat ≤ 0x7F)) = true) :
    pascalToLowerWithDot T s = pascalToLowerWithDot T' s := by
  unfold pascalToLowerWithDot
  apply pascalLoop_ascii
  intro c hc
  have := (List.all_eq_true.mp h) c hc
  simpa using this

theorem GetSdkHeaders_eq (T : CaseTables) (rt : Runtime) (n v op : String) :
    GetSdkHeaders T rt n v op
      = [("User-Agent", GetUserAgentInfo rt), ("ID", pascalToLowerWithDot T op),
          ("scheme", "http")] := by
  simp [GetSdkHeaders, GoMap.make, GoMap.set, headerNameUserAgent]

theorem GetSystemInfo_eq (rt : Runtime) :
    GetSystemInfo rt
      = "(lang=go; arch=" ++ rt.GOARCH ++ "; os=" ++ rt.GOOS ++ "; go.version="
          ++ rt.runtimeVersion ++ ")" := by
  apply String.ext
  simp [GetSystemInfo, systemInfo, Sprintf, sprintfAux]

theorem GetUserAgentInfo_eq (rt : Runtime) :
    GetUserAgentInfo rt = "power-beta-go-sdk/" ++ rt.Version ++ " " ++ GetSystemInfo rt := by
  apply String.ext
  simp [GetUserAgentInfo, userAgent, Sprintf, sprintfAux, sdkName]

/-! ## The claims -/

/-- C1: for every operation identifier `s`, `pascalToLowerWithDot s` equals the
two-pass reference: insert a `.` before every character of `s` that is an upper
case letter and is not the first character, then lowercase every character of
that result. -/
theorem pascalToLowerWithDot_eq_reference (T : CaseTables) (s : String) :
    pascalToLowerWithDot T s = deriveHeaderIDRef T s := by
  apply String.ext
  unfold pascalToLowerWithDot deriveHeaderIDRef
  cases hs : s.data with
  | nil => simp [pascalLoop, insertDots, lowercaseAll]
  | cons c cs =>
    rw [pascalLoop]
    rw [pascalLoop_data T cs _ _ (by have := RuneLen_pos c; omega)]
    simp [insertDots, lowercaseAll]

/-- C2: `pascalToLowerWithDot "ServiceBrokerHealthHead"` is
`"service.broker.health.head"`, and `GetSdkHeaders n v "ServiceBrokerHealthHead"`
carries that value under `ID` for every service name `n` and version `v`. -/
theorem serviceBrokerHealthHead_id (T : CaseTables) (rt : Runtime) (n v : String) :
    pascalToLowerWithDot T "ServiceBrokerHealthHead" = "service.broker.health.head" ∧
      (GetSdkHeaders T rt n v "ServiceBrokerHealthHead").get? "ID"
        = some "service.broker.health.head" := by
  have h : pascalToLowerWithDot T "ServiceBrokerHealthHead" = "service.broker.health.head" := by
    rw [pascalToLowerWithDot_ascii T CaseTables.none _ (by decide)]
    decide
  refine ⟨h, ?_⟩
  rw [GetSdkHeaders_eq, h]
  simp [GoMap.get?]

/-- C3: `pascalToLowerWithDot "PcloudV2VolumesPost"` is `"pcloud.v2.volumes.post"`:
the digit after the upper case `V` gets no separator of its own, the upper case
letter after the digit does. -/
theorem pcloudV2VolumesPost_id (T : CaseTables) :
    pascalToLowerWithDot T "PcloudV2VolumesPost" = "pcloud.v2.volumes.post" := by
  rw [pascalToLowerWithDot_ascii T CaseTables.none _ (by decide)]
  decide

/-- C4: for every service name, service version and operation identifier, the
map returned by `GetSdkHeaders` has exactly the three keys `User-Agent`, `ID`
and `scheme`: each is present once, and no other key is. -/
theorem GetSdkHeaders_keys (T : CaseTables) (rt : Runtime)
    (serviceName serviceVersion operationId : String) :
    (GetSdkHeaders T rt serviceName serviceVersion operationId).keys.Nodup ∧
      (GetSdkHeaders T rt serviceName serviceVersion operationId).keys.length = 3 ∧
      ∀ k : String,
        ((GetSdkHeaders T rt serviceName serviceVersion operationId).get? k).isSome = true
          ↔ (k = "User-Agent" ∨ k = "ID" ∨ k = "scheme") := by
  rw [GetSdkHeaders_eq]
  refine ⟨by simp [GoMap.keys], by simp [GoMap.keys], ?_⟩
  intro k
  by_cases h1 : "User-Agent" = k
  · simp [GoMap.get?, h1]
  · by_cases h2 : "ID" = k
    · simp [GoMap.get?, h1, h2]
    · by_cases h3 : "scheme" = k
      · simp [GoMap.get?, h1, h2, h3]
      · simp [GoMap.get?, h1, h2, h3, Ne.symm h1, Ne.symm h2, Ne.symm h3]

/-- C5: for every service name, service version and operation identifier, the
value stored under `ID` in the map returned by `GetSdkHeaders` is
`pascalToLowerWithDot operationId`. -/
theorem GetSdkHeaders_ID (T : CaseTables) (rt : Runtime)
    (serviceName serviceVersion operationId : String) :
    (GetSdkHeaders T rt serviceName serviceVersion operationId).get? "ID"
      = some (pascalToLowerWithDot T operationId) := by
  rw [GetSdkHeaders_eq]
  simp [GoMap.get?]

/-- C6: for every service name, service version and operation identifier, the
value stored under `scheme` in the map returned by `GetSdkHeaders` is the
literal string `http`. -/
theorem GetSdkHeaders_scheme (T : CaseTables) (rt : Runtime)
    (serviceName serviceVersion operationId : String) :
    (GetSdkHeaders T rt serviceName serviceVersion operationId).get? "scheme"
      = some "http" := by
  rw [GetSdkHeaders_eq]
  simp [GoMap.get?]

/-- C7: for every service name, service version and operation identifier, the
value stored under `User-Agent` in the map returned by `GetSdkHeaders` is
`GetUserAgentInfo()`; hence two calls of `GetSdkHeaders` in one process,
whatever their arguments, carry the same `User-Agent` value. -/
theorem GetSdkHeaders_userAgent (T : CaseTables) (rt : Runtime)
    (serviceName serviceVersion operationId : String)
    (serviceName2 serviceVersion2 operationId2 : String) :
    (GetSdkHeaders T rt serviceName serviceVersion operationId).get? "User-Agent"
        = some (GetUserAgentInfo rt) ∧
      (GetSdkHeaders T rt serviceName serviceVersion operationId).get? "User-Agent"
        = (GetSdkHeaders T rt serviceName2 serviceVersion2 operationId2).get? "User-Agent" := by
  rw [GetSdkHeaders_eq, GetSdkHeaders_eq]
  simp [GoMap.get?]

/-- C8, as the specification states it, fails: with version `0.0.1` on
`amd64`/`linux` under `go1.20` the User-Agent is not the template whose last
field is introduced by `runtime-version=`. -/
theorem userAgent_not_runtime_version :
    GetUserAgentInfo ⟨"0.0.1", "amd64", "linux", "go1.20"⟩
      ≠ specUserAgent ⟨"0.0.1", "amd64", "linux", "go1.20"⟩ := by
  decide

/-- C8, amended: for every SDK version `V`, architecture `A`, operating system
`O` and runtime version `R`, the User-Agent string returned by
`GetUserAgentInfo` is `<sdk-name>/V (lang=go; arch=A; os=O; go.version=R)`: the
last field of the parenthesised system information is introduced by the key
`go.version=`. -/
theorem userAgent_template (V A O R : String) :
    GetUserAgentInfo ⟨V, A, O, R⟩
      = sdkName ++ "/" ++ V ++ " (lang=go; arch=" ++ A ++ "; os=" ++ O ++ "; go.version="
          ++ R ++ ")" := by
  rw [GetUserAgentInfo_eq, GetSystemInfo_eq]
  apply String.ext
  simp [sdkName]

/-- C9: for every SDK version `V`, architecture `A`, operating system `O` and Go
runtime version `R`, `GetUserAgentInfo()` is `"power-beta-go-sdk/" ++ V ++ " " ++
GetSystemInfo()` and `GetSystemInfo()` is `"(lang=go; arch=" ++ A ++ "; os=" ++ O
++ "; go.version=" ++ R ++ ")"`, which for `0.0.1`, `x86_64`, `Linux`, `1.12.9`
is the documented
`power-beta-go-sdk/0.0.1 (lang=go; arch=x86_64; os=Linux; go.version=1.12.9)`. -/
theorem userAgent_documented_shape :
    (∀ V A O R : String,
      GetUserAgentInfo ⟨V, A, O, R⟩
          = "power-beta-go-sdk/" ++ V ++ " " ++ GetSystemInfo ⟨V, A, O, R⟩ ∧
        GetSystemInfo ⟨V, A, O, R⟩
          = "(lang=go; arch=" ++ A ++ "; os=" ++ O ++ "; go.version=" ++ R ++ ")") ∧
      GetUserAgentInfo ⟨"0.0.1", "x86_64", "Linux", "1.12.9"⟩
        = "power-beta-go-sdk/0.0.1 (lang=go; arch=x86_64; os=Linux; go.version=1.12.9)" := by
  refine ⟨fun V A O R => ⟨GetUserAgentInfo_eq _, GetSystemInfo_eq _⟩, ?_⟩
  decide

/-- C10: for every SDK version string `V`, also one that contains `/`, the
SDK-name component of the User-Agent, the text of `GetUserAgentInfo()` before
its first `/`, is `power-beta-go-sdk`, and it ends with `-sdk`. -/
theorem userAgent_sdkName (V A O R : String) :
    sdkNameComponent (GetUserAgentInfo ⟨V, A, O, R⟩) = "power-beta-go-sdk" ∧
      "-sdk".data <:+ (sdkNameComponent (GetUserAgentInfo ⟨V, A, O, R⟩)).data := by
  have h : sdkNameComponent (GetUserAgentInfo ⟨V, A, O, R⟩) = "power-beta-go-sdk" := by
    rw [GetUserAgentInfo_eq]
    apply String.ext
    simp [sdkNameComponent, List.takeWhile]
  rw [h]
  exact ⟨rfl, by decide⟩


/-! ## Lemmas for the state machine and the shape of the derived identifier -/

theorem run_eq (T : CaseTables) (calls : List Call) :
    ∀ g : Globals, run T g calls = (calls.map (fun c => (c.exec T g).1), g) := by
  induction calls with
  | nil => intro g; rfl
  | cons c rest ih =>
    intro g
    have hg : (c.exec T g).2 = g := by cases c <;> rfl
    simp [run, hg, ih]

theorem exec_GetSdkHeaders (T : CaseTables) (rt : Runtime) (n v op : String) :
    (Call.GetSdkHeaders n v op).exec T (Globals.init rt)
      = (.headers (GetSdkHeaders T rt n v op), Globals.init rt) := rfl

theorem pascalToLowerWithDot_data (T : CaseTables) (s : String) :
    (pascalToLowerWithDot T s).data = lowercaseAll T (insertDots T s.data) := by
  unfold pascalToLowerWithDot
  cases hs : s.data with
  | nil => simp [pascalLoop, insertDots, lowercaseAll]
  | cons c cs =>
    rw [pascalLoop]
    rw [pascalLoop_data T cs _ _ (by have := RuneLen_pos c; omega)]
    simp [insertDots, lowercaseAll]

theorem insertDotsTail_length (T : CaseTables) (cs : List Char) :
    (insertDotsTail T cs).length = cs.length + cs.countP (IsUpper T) := by
  induction cs with
  | nil => simp [insertDotsTail]
  | cons c cs ih =>
    cases hU : IsUpper T c <;> simp [insertDotsTail, hU, ih] <;> omega

theorem pascalToLowerWithDot_length (T : CaseTables) (s : String) :
    (pascalToLowerWithDot T s).data.length
      = s.data.length + s.data.tail.countP (IsUpper T) := by
  rw [pascalToLowerWithDot_data]
  cases hs : s.data with
  | nil => simp [insertDots, lowercaseAll]
  | cons c cs => simp [insertDots, lowercaseAll, insertDotsTail_length]; omega

theorem ascii_lower_closed :
    ∀ n, n < 128 → (ToLower CaseTables.none (Char.ofNat n)).toNat ≤ 0x7F ∧
        IsUpper CaseTables.none (ToLower CaseTables.none (Char.ofNat n)) = false := by
  decide

theorem ToLower_ascii_not_upper (T : CaseTables) (c : Char) (h : c.toNat ≤ 0x7F) :
    IsUpper T (ToLower T c) = false := by
  have hc := ascii_lower_closed c.toNat (by omega)
  rw [Char.ofNat_toNat] at hc
  rw [ToLower_ascii T CaseTables.none c h, IsUpper_ascii T CaseTables.none _ hc.1]
  exact hc.2

theorem insertDotsTail_mem (T : CaseTables) (cs : List Char) (d : Char)
    (h : d ∈ insertDotsTail T cs) : d = '.' ∨ d ∈ cs := by
  induction cs with
  | nil => simp [insertDotsTail] at h
  | cons c cs ih =>
    unfold insertDotsTail at h
    split_ifs at h
    · simp only [List.mem_cons] at h
      rcases h with h | h | h
      · exact Or.inl h
      · exact Or.inr (by simp [h])
      · rcases ih h with h | h
        · exact Or.inl h
        · exact Or.inr (List.mem_cons_of_mem _ h)
    · simp only [List.mem_cons] at h
      rcases h with h | h
      · exact Or.inr (by simp [h])
      · rcases ih h with h | h
        · exact Or.inl h
        · exact Or.inr (List.mem_cons_of_mem _ h)

theorem insertDots_mem (T : CaseTables) (cs : List Char) (d : Char)
    (h : d ∈ insertDots T cs) : d = '.' ∨ d ∈ cs := by
  cases cs with
  | nil => simp [insertDots] at h
  | cons c cs =>
    simp only [insertDots, List.mem_cons] at h
    rcases h with h | h
    · exact Or.inr (by simp [h])
    · rcases insertDotsTail_mem T cs d h with h | h
      · exact Or.inl h
      · exact Or.inr (List.mem_cons_of_mem _ h)


/-- C11: `GetUserAgentInfo` and `GetSystemInfo` are stable within one process:
no call of `GetSdkHeaders`, `GetUserAgentInfo`, `GetSystemInfo` or
`pascalToLowerWithDot` modifies the package variables `userAgent` and
`systemInfo`, so in any sequence of package calls every call of
`GetUserAgentInfo` returns the value of the first call, and every call of
`GetSystemInfo` likewise. -/
theorem package_variables_stable (T : CaseTables) (rt : Runtime) (calls : List Call) :
    (run T (Globals.init rt) calls).2 = Globals.init rt ∧
      (∀ i : Nat, calls[i]? = some Call.GetUserAgentInfo →
        (run T (Globals.init rt) calls).1[i]? = some (Value.string (GetUserAgentInfo rt))) ∧
      (∀ i : Nat, calls[i]? = some Call.GetSystemInfo →
        (run T (Globals.init rt) calls).1[i]? = some (Value.string (GetSystemInfo rt))) := by
  rw [run_eq]
  refine ⟨rfl, ?_, ?_⟩
  · intro i h
    simp only [List.getElem?_map, h]
    rfl
  · intro i h
    simp only [List.getElem?_map, h]
    rfl

theorem package_variables_stable_witness :
    (run CaseTables.none (Globals.init ⟨"0.0.1", "amd64", "linux", "go1.20"⟩)
        [Call.GetUserAgentInfo, Call.GetSdkHeaders "powervs" "V1" "PcloudV2VolumesPost",
          Call.pascalToLowerWithDot "AB", Call.GetSystemInfo, Call.GetUserAgentInfo]).1[4]?
      = some (Value.string (GetUserAgentInfo ⟨"0.0.1", "amd64", "linux", "go1.20"⟩)) :=
  (package_variables_stable CaseTables.none ⟨"0.0.1", "amd64", "linux", "go1.20"⟩
    [Call.GetUserAgentInfo, Call.GetSdkHeaders "powervs" "V1" "PcloudV2VolumesPost",
      Call.pascalToLowerWithDot "AB", Call.GetSystemInfo, Call.GetUserAgentInfo]).2.1 4 rfl

/-- C12: `GetSdkHeaders` has no error condition and is a pure function: for
every triple of strings it returns a header map (for three empty strings the
map with an empty `ID`), and two calls with the same operation identifier in
one process, whatever is called before and between them, return equal maps. -/
theorem GetSdkHeaders_pure (T : CaseTables) (rt : Runtime) (before between : List Call)
    (serviceName serviceVersion serviceName2 serviceVersion2 operationId : String) :
    ((Call.GetSdkHeaders serviceName serviceVersion operationId).exec T (Globals.init rt)).1
        = Value.headers (GetSdkHeaders T rt serviceName serviceVersion operationId) ∧
      GetSdkHeaders T rt "" "" ""
        = [("User-Agent", GetUserAgentInfo rt), ("ID", ""), ("scheme", "http")] ∧
      (run T (Globals.init rt)
          (before ++ Call.GetSdkHeaders serviceName serviceVersion operationId ::
            (between ++ [Call.GetSdkHeaders serviceName2 serviceVersion2 operationId]))).1[
            before.length]?
        = some (Value.headers (GetSdkHeaders T rt serviceName serviceVersion operationId)) ∧
      (run T (Globals.init rt)
          (before ++ Call.GetSdkHeaders serviceName serviceVersion operationId ::
            (between ++ [Call.GetSdkHeaders serviceName2 serviceVersion2 operationId]))).1[
            before.length + 1 + between.length]?
        = some (Value.headers (GetSdkHeaders T rt serviceName serviceVersion operationId)) := by
  refine ⟨rfl, ?_, ?_, ?_⟩
  · rw [GetSdkHeaders_eq]
    rfl
  · rw [run_eq]
    simp only [List.map_append, List.map_cons]
    rw [List.getElem?_append_right (by simp)]
    simp
    rfl
  · rw [run_eq]
    simp only [List.map_append, List.map_cons]
    rw [List.getElem?_append_right (by simp; omega)]
    simp
    rw [show before.length + 1 + between.length - before.length = between.length + 1 by omega]
    simp
    rfl

/-- C13, as stated, fails: with the upper case rune U+1D400, which has no lower
case form, the derived `ID` holds an upper case letter. -/
theorem pascalToLowerWithDot_keeps_mathBold :
    ¬ (∀ c ∈ (pascalToLowerWithDot CaseTables.mathBold
          (String.singleton (Char.ofNat 0x1D400))).data,
        IsUpper CaseTables.mathBold c = false) := by
  decide

/-- C13, amended: for every operation identifier `s` made only of ASCII
characters, no character of `pascalToLowerWithDot s` is an upper case letter. -/
theorem pascalToLowerWithDot_ascii_lowercase (T : CaseTables) (s : String)
    (h : ∀ c ∈ s.data, c.toNat ≤ 0x7F) :
    ∀ c ∈ (pascalToLowerWithDot T s).data, IsUpper T c = false := by
  intro c hc
  rw [pascalToLowerWithDot_data, lowercaseAll, List.mem_map] at hc
  obtain ⟨d, hd, rfl⟩ := hc
  apply ToLower_ascii_not_upper
  rcases insertDots_mem T _ d hd with hd | hd
  · rw [hd]; decide
  · exact h d hd

theorem pascalToLowerWithDot_ascii_lowercase_witness :
    (∀ c ∈ "PcloudV2VolumesPost".data, c.toNat ≤ 0x7F) ∧
      ∀ c ∈ (pascalToLowerWithDot CaseTables.none "PcloudV2VolumesPost").data,
        IsUpper CaseTables.none c = false :=
  ⟨by decide,
    pascalToLowerWithDot_ascii_lowercase CaseTables.none "PcloudV2VolumesPost" (by decide)⟩

/-- C14: for every operation identifier `s`, if `pascalToLowerWithDot` applied to
`pascalToLowerWithDot s` gives `pascalToLowerWithDot s` back, then
`pascalToLowerWithDot s` has no upper case letter at any position after the
first. -/
theorem pascalToLowerWithDot_fixed_only_if (T : CaseTables) (s : String)
    (h : pascalToLowerWithDot T (pascalToLowerWithDot T s) = pascalToLowerWithDot T s) :
    ∀ c ∈ (pascalToLowerWithDot T s).data.tail, IsUpper T c = false := by
  have hlen := pascalToLowerWithDot_length T (pascalToLowerWithDot T s)
  rw [h] at hlen
  have h0 : (pascalToLowerWithDot T s).data.tail.countP (IsUpper T) = 0 := by omega
  intro c hc
  have := List.countP_eq_zero.mp h0 c hc
  simpa using this

theorem pascalToLowerWithDot_fixed_only_if_witness :
    pascalToLowerWithDot CaseTables.none
        (pascalToLowerWithDot CaseTables.none "ServiceBrokerHealthHead")
        = pascalToLowerWithDot CaseTables.none "ServiceBrokerHealthHead" ∧
      ∀ c ∈ (pascalToLowerWithDot CaseTables.none "ServiceBrokerHealthHead").data.tail,
        IsUpper CaseTables.none c = false :=
  ⟨by decide,
    pascalToLowerWithDot_fixed_only_if CaseTables.none "ServiceBrokerHealthHead" (by decide)⟩

/-- C15: the derivation of the `ID` has no round trip: `aB`, `AB` and `a.b` all
give `a.b`, so `pascalToLowerWithDot` is not injective and the operation
identifier cannot be recovered from the `ID` header. -/
theorem pascalToLowerWithDot_not_injective (T : CaseTables) :
    pascalToLowerWithDot T "aB" = "a.b" ∧ pascalToLowerWithDot T "AB" = "a.b" ∧
      pascalToLowerWithDot T "a.b" = "a.b" ∧
      ¬ Function.Injective (pascalToLowerWithDot T) := by
  have h1 : pascalToLowerWithDot T "aB" = "a.b" := by
    rw [pascalToLowerWithDot_ascii T CaseTables.none _ (by decide)]
    decide
  have h2 : pascalToLowerWithDot T "AB" = "a.b" := by
    rw [pascalToLowerWithDot_ascii T CaseTables.none _ (by decide)]
    decide
  have h3 : pascalToLowerWithDot T "a.b" = "a.b" := by
    rw [pascalToLowerWithDot_ascii T CaseTables.none _ (by decide)]
    decide
  refine ⟨h1, h2, h3, ?_⟩
  intro hinj
  have := hinj (h1.trans h2.symm)
  exact absurd this (by decide)

end common

namespace powervsv1

/-! ## Lemmas on the modelled invoker -/

theorem missingRequired_of_mem (opts : RequestOptions) (f : OptionField) (hf : f ∈ opts)
    (hreq : f.required = true) (hmiss : f.present = false) :
    ∃ field, missingRequired opts = some field := by
  unfold missingRequired
  cases h : opts.find? (fun f => f.required && !f.present) with
  | some g => exact ⟨g.name, rfl⟩
  | none =>
    have := List.find?_eq_none.mp h f hf
    simp [hreq, hmiss] at this

/-- After `k` retryable answers within the budget, an answer that is not
retryable ends the call at request `k + 1`. -/
theorem invoke_after_retries (c : PowervsV1) (op : Operation) (t : Transport) :
    ∀ (budget sent k : Nat), k ≤ budget →
      (∀ j, j < k → retryable c op (t (sent + j)) = true) →
      retryable c op (t (sent + k)) = false →
      invoke c op t budget sent = conclude op (t (sent + k)) (sent + k + 1) := by
  intro budget
  induction budget with
  | zero =>
    intro sent k hk _ _
    have : k = 0 := by omega
    subst this
    simp [invoke]
  | succ b ih =>
    intro sent k hk hfail hstop
    cases k with
    | zero =>
      have h0 : retryable c op (t sent) = false := by simpa using hstop
      simp [invoke, h0]
    | succ k =>
      have h0 : retryable c op (t sent) = true := by simpa using hfail 0 (by omega)
      rw [invoke]
      simp only [h0, if_true]
      rw [ih (sent + 1) k (by omega)
        (fun j hj => by
          have := hfail (j + 1) (by omega)
          rwa [show sent + 1 + j = sent + (j + 1) by omega])
        (by rwa [show sent + 1 + k = sent + (k + 1) by omega])]
      rw [show sent + 1 + k = sent + (k + 1) by omega]

/-- A call ends on one of the answers of the transport, after at most
`budget + 1` requests. -/
theorem invoke_concludes (c : PowervsV1) (op : Operation) (t : Transport) :
    ∀ (budget sent : Nat), ∃ n, n ≤ budget ∧
      invoke c op t budget sent = conclude op (t (sent + n)) (sent + n + 1) := by
  intro budget
  induction budget with
  | zero => intro sent; exact ⟨0, le_refl _, by simp [invoke]⟩
  | succ b ih =>
    intro sent
    cases h0 : retryable c op (t sent) with
    | false => exact ⟨0, by omega, by simp [invoke, h0]⟩
    | true =>
      obtain ⟨n, hn, he⟩ := ih (sent + 1)
      refine ⟨n + 1, by omega, ?_⟩
      rw [invoke]
      simp only [h0, if_true]
      rw [he, show sent + 1 + n = sent + (n + 1) by omega]

theorem conclude_requests (op : Operation) (a : Answer) (n : Nat) :
    (conclude op a n).requests = n := by
  unfold conclude
  cases a with
  | networkFailure => rfl
  | response r =>
    cases r with
    | mk status body =>
      cases body <;> simp <;> split_ifs <;> rfl

theorem retryable_success (c : PowervsV1) (op : Operation) (body : Body) :
    retryable c op (.response ⟨op.successCode, body⟩) = false := by
  simp [retryable]

theorem conclude_response (op : Operation) (r : DetailedResponse) (n : Nat) :
    (conclude op (.response r) n).response = some r := by
  unfold conclude
  cases r with
  | mk status body => cases body <;> simp <;> split_ifs <;> rfl

theorem retryable_EnableRetries (c : PowervsV1) (op : Operation) (m i : Nat) (a : Answer) :
    retryable (c.EnableRetries m i) op a = retryable c op a := by
  cases a <;> rfl

/-- With retries enabled no call sends more than `maxRetries + 1` requests. -/
theorem call_requests_le (c : PowervsV1) (op : Operation) (opts : RequestOptions)
    (t : Transport) (maxRetries maxInterval : Nat) :
    (call (c.EnableRetries maxRetries maxInterval) op opts t).requests ≤ maxRetries + 1 := by
  unfold call
  cases missingRequired opts with
  | some field => simp
  | none =>
    obtain ⟨n, hn, he⟩ := invoke_concludes (c.EnableRetries maxRetries maxInterval) op t
      (if (c.EnableRetries maxRetries maxInterval).retriesEnabled
        then (c.EnableRetries maxRetries maxInterval).maxRetries else 0) 0
    simp only [he, conclude_requests]
    simp [PowervsV1.EnableRetries] at hn
    omega

/-! ## The claims on the service client -/

/-- C16: for every operation method of the service client and every options
value in which a required field is missing (nil or empty), the method returns a
`ValidationError`, no result and no response, and performs zero network
requests. -/
theorem missing_required_field (c : PowervsV1) (op : Operation) (opts : RequestOptions)
    (t : Transport) (f : OptionField) (hf : f ∈ opts) (hreq : f.required = true)
    (hmiss : f.value = none ∨ f.value = some "") :
    (∃ field, (call c op opts t).err = some (SdkError.ValidationError field)) ∧
      (call c op opts t).result = none ∧ (call c op opts t).response = none ∧
      (call c op opts t).requests = 0 := by
  have hp : f.present = false := by
    rcases hmiss with h | h <;> simp [OptionField.present, h]
  obtain ⟨field, hfield⟩ := missingRequired_of_mem opts f hf hreq hp
  simp [call, hfield]

theorem missing_required_field_witness :
    (∃ field, (call (defaultClient "https://dal.power-iaas.test.cloud.ibm.com")
          ServiceBrokerAuthDeviceTokenPost [⟨"DeviceCode", true, none⟩]
          (fun _ => Answer.response ⟨200, Body.wellFormed "token"⟩)).err
        = some (SdkError.ValidationError field)) ∧
      (call (defaultClient "https://dal.power-iaas.test.cloud.ibm.com")
          ServiceBrokerAuthDeviceTokenPost [⟨"DeviceCode", true, none⟩]
          (fun _ => Answer.response ⟨200, Body.wellFormed "token"⟩)).result = none ∧
      (call (defaultClient "https://dal.power-iaas.test.cloud.ibm.com")
          ServiceBrokerAuthDeviceTokenPost [⟨"DeviceCode", true, none⟩]
          (fun _ => Answer.response ⟨200, Body.wellFormed "token"⟩)).response = none ∧
      (call (defaultClient "https://dal.power-iaas.test.cloud.ibm.com")
          ServiceBrokerAuthDeviceTokenPost [⟨"DeviceCode", true, none⟩]
          (fun _ => Answer.response ⟨200, Body.wellFormed "token"⟩)).requests = 0 :=
  missing_required_field _ _ [⟨"DeviceCode", true, none⟩] _ ⟨"DeviceCode", true, none⟩
    (List.mem_singleton.mpr rfl) rfl (Or.inl rfl)

/-- C17, as stated, fails: `ServiceBrokerHealthHead`, called with valid options
on a transport that answers 200 with a well-formed body, returns a nil error
and a response with status 200 but no decoded result. -/
theorem serviceBrokerHealthHead_no_result :
    (call (defaultClient "https://dal.power-iaas.test.cloud.ibm.com")
          ServiceBrokerHealthHead [] (fun _ => Answer.response ⟨200, Body.wellFormed ""⟩)).err
        = none ∧
      (call (defaultClient "https://dal.power-iaas.test.cloud.ibm.com")
          ServiceBrokerHealthHead [] (fun _ => Answer.response ⟨200, Body.wellFormed ""⟩)).response
        = some ⟨200, Body.wellFormed ""⟩ ∧
      (call (defaultClient "https://dal.power-iaas.test.cloud.ibm.com")
          ServiceBrokerHealthHead [] (fun _ => Answer.response ⟨200, Body.wellFormed ""⟩)).result
        = none := by
  decide

/-- C17, amended: for every operation method that declares a decoded result,
called with valid options, when the transport answers with the expected success
status code of the operation and a well-formed body, the method returns a nil
error, a response whose `StatusCode` is that code, and a non-nil decoded
result. -/
theorem success_returns_result (c : PowervsV1) (op : Operation) (opts : RequestOptions)
    (t : Transport) (content : String) (hvalid : missingRequired opts = none)
    (hres : op.declaresResult = true)
    (h200 : t 0 = Answer.response ⟨op.successCode, Body.wellFormed content⟩) :
    (call c op opts t).err = none ∧
      (call c op opts t).response.map (fun r => r.StatusCode) = some op.successCode ∧
      (call c op opts t).result = some content := by
  have hstop : retryable c op (t (0 + 0)) = false := by
    rw [show (0 : Nat) + 0 = 0 from rfl, h200]; exact retryable_success c op _
  have h := invoke_after_retries c op t (if c.retriesEnabled then c.maxRetries else 0) 0 0
    (Nat.zero_le _) (fun j hj => absurd hj (Nat.not_lt_zero j)) hstop
  simp only [call, hvalid, h]
  rw [show (0 : Nat) + 0 = 0 from rfl, h200]
  simp [conclude, hres]

theorem success_returns_result_witness :
    (call (defaultClient "https://dal.power-iaas.test.cloud.ibm.com") PcloudV2VolumesPost
          [⟨"CloudInstanceID", true, some "testString"⟩]
          (fun _ => Answer.response ⟨201, Body.wellFormed "volumes"⟩)).err = none ∧
      (call (defaultClient "https://dal.power-iaas.test.cloud.ibm.com") PcloudV2VolumesPost
          [⟨"CloudInstanceID", true, some "testString"⟩]
          (fun _ => Answer.response ⟨201, Body.wellFormed "volumes"⟩)).response.map
            (fun r => r.StatusCode) = some 201 ∧
      (call (defaultClient "https://dal.power-iaas.test.cloud.ibm.com") PcloudV2VolumesPost
          [⟨"CloudInstanceID", true, some "testString"⟩]
          (fun _ => Answer.response ⟨201, Body.wellFormed "volumes"⟩)).result
        = some "volumes" :=
  success_returns_result (defaultClient "https://dal.power-iaas.test.cloud.ibm.com")
    PcloudV2VolumesPost [⟨"CloudInstanceID", true, some "testString"⟩]
    (fun _ => Answer.response ⟨201, Body.wellFormed "volumes"⟩) "volumes" (by decide) rfl rfl


/-- C18: for every operation method, when the transport answers with a
non-success status code (404 for one) and an error-shaped body, the method
returns no result, a response envelope carrying that status code, and an error
carrying the decoded error payload. -/
theorem api_error_returned (c : PowervsV1) (op : Operation) (opts : RequestOptions)
    (t : Transport) (status : Nat) (message code : String)
    (hvalid : missingRequired opts = none) (hne : status ≠ op.successCode)
    (hans : ∀ n, t n = Answer.response ⟨status, Body.errorShaped message code⟩) :
    (call c op opts t).result = none ∧
      (call c op opts t).response = some ⟨status, Body.errorShaped message code⟩ ∧
      (call c op opts t).err = some (SdkError.APIError status (some (message, code))) := by
  obtain ⟨n, _, he⟩ :=
    invoke_concludes c op t (if c.retriesEnabled then c.maxRetries else 0) 0
  simp only [call, hvalid, he, hans]
  simp [conclude, hne]

theorem api_error_returned_witness :
    (call (defaultClient "https://dal.power-iaas.test.cloud.ibm.com")
          ServiceBrokerAuthDeviceTokenPost [⟨"DeviceCode", true, some "testString"⟩]
          (fun _ => Answer.response ⟨404, Body.errorShaped "not found" "404"⟩)).result = none ∧
      (call (defaultClient "https://dal.power-iaas.test.cloud.ibm.com")
          ServiceBrokerAuthDeviceTokenPost [⟨"DeviceCode", true, some "testString"⟩]
          (fun _ => Answer.response ⟨404, Body.errorShaped "not found" "404"⟩)).response
        = some ⟨404, Body.errorShaped "not found" "404"⟩ ∧
      (call (defaultClient "https://dal.power-iaas.test.cloud.ibm.com")
          ServiceBrokerAuthDeviceTokenPost [⟨"DeviceCode", true, some "testString"⟩]
          (fun _ => Answer.response ⟨404, Body.errorShaped "not found" "404"⟩)).err
        = some (SdkError.APIError 404 (some ("not found", "404"))) :=
  api_error_returned (defaultClient "https://dal.power-iaas.test.cloud.ibm.com")
    ServiceBrokerAuthDeviceTokenPost [⟨"DeviceCode", true, some "testString"⟩]
    (fun _ => Answer.response ⟨404, Body.errorShaped "not found" "404"⟩) 404 "not found" "404"
    (by decide) (by decide) (fun _ => rfl)

/-- C19: with retries enabled through `EnableRetries(maxRetries, maxInterval)`,
a call whose transport fails with retryable failures `k` times, `k ≤ maxRetries`,
and then succeeds returns the successful result after exactly `k + 1` attempts,
and no call makes more than `maxRetries + 1` attempts. -/
theorem retries_then_success (c : PowervsV1) (op : Operation) (opts : RequestOptions)
    (t : Transport) (maxRetries maxInterval k : Nat) (content : String)
    (hvalid : missingRequired opts = none) (hk : k ≤ maxRetries)
    (hfail : ∀ j, j < k → retryable c op (t j) = true)
    (hok : t k = Answer.response ⟨op.successCode, Body.wellFormed content⟩) :
    (call (c.EnableRetries maxRetries maxInterval) op opts t).requests = k + 1 ∧
      (call (c.EnableRetries maxRetries maxInterval) op opts t).err = none ∧
      (call (c.EnableRetries maxRetries maxInterval) op opts t).response
        = some ⟨op.successCode, Body.wellFormed content⟩ ∧
      (call (c.EnableRetries maxRetries maxInterval) op opts t).result
        = (if op.declaresResult then some content else none) ∧
      ∀ (opts2 : RequestOptions) (t2 : Transport),
        (call (c.EnableRetries maxRetries maxInterval) op opts2 t2).requests
          ≤ maxRetries + 1 := by
  have h := invoke_after_retries (c.EnableRetries maxRetries maxInterval) op t maxRetries 0 k hk
    (fun j hj => by
      rw [retryable_EnableRetries, show (0 : Nat) + j = j by omega]; exact hfail j hj)
    (by rw [show (0 : Nat) + k = k by omega, hok]; exact retryable_success _ op _)
  rw [show (0 : Nat) + k = k by omega, hok] at h
  have hc : call (c.EnableRetries maxRetries maxInterval) op opts t
      = conclude op (Answer.response ⟨op.successCode, Body.wellFormed content⟩) (k + 1) := by
    simp only [call, hvalid]
    simpa [PowervsV1.EnableRetries] using h
  refine ⟨?_, ?_, ?_, ?_, fun opts2 t2 => call_requests_le c op opts2 t2 maxRetries maxInterval⟩
  · rw [hc, conclude_requests]
  · rw [hc]; cases hd : op.declaresResult <;> simp [conclude, hd]
  · rw [hc, conclude_response]
  · rw [hc]; cases hd : op.declaresResult <;> simp [conclude, hd]

theorem retries_then_success_witness :
    (call ((defaultClient "https://dal.power-iaas.test.cloud.ibm.com").EnableRetries 3 30)
          ServiceBrokerAuthDeviceTokenPost [⟨"DeviceCode", true, some "testString"⟩]
          (fun n => if n < 2 then Answer.networkFailure
            else Answer.response ⟨200, Body.wellFormed "token"⟩)).requests = 2 + 1 ∧
      (call ((defaultClient "https://dal.power-iaas.test.cloud.ibm.com").EnableRetries 3 30)
          ServiceBrokerAuthDeviceTokenPost [⟨"DeviceCode", true, some "testString"⟩]
          (fun n => if n < 2 then Answer.networkFailure
            else Answer.response ⟨200, Body.wellFormed "token"⟩)).result = some "token" :=
  have h := retries_then_success (defaultClient "https://dal.power-iaas.test.cloud.ibm.com")
    ServiceBrokerAuthDeviceTokenPost [⟨"DeviceCode", true, some "testString"⟩]
    (fun n => if n < 2 then Answer.networkFailure
      else Answer.response ⟨200, Body.wellFormed "token"⟩) 3 30 2 "token"
    (by decide) (by decide) (by decide) rfl
  ⟨h.1, h.2.2.2.1⟩

/-- C20: with retries enabled, a call whose transport always answers with the
status 400, which is not retryable, returns after exactly 1 attempt, with the
response of status 400 and, 400 not being the success code, an API error. -/
theorem non_retryable_one_attempt (c : PowervsV1) (op : Operation) (opts : RequestOptions)
    (t : Transport) (maxRetries maxInterval : Nat) (body : Body)
    (hvalid : missingRequired opts = none)
    (h400 : c.retryableStatus.contains 400 = false)
    (hans : ∀ n, t n = Answer.response ⟨400, body⟩) :
    (call (c.EnableRetries maxRetries maxInterval) op opts t).requests = 1 ∧
      (call (c.EnableRetries maxRetries maxInterval) op opts t).response = some ⟨400, body⟩ ∧
      (op.successCode ≠ 400 →
        ∃ payload, (call (c.EnableRetries maxRetries maxInterval) op opts t).err
          = some (SdkError.APIError 400 payload)) := by
  have hstop : retryable (c.EnableRetries maxRetries maxInterval) op (t (0 + 0)) = false := by
    rw [retryable_EnableRetries, show (0 : Nat) + 0 = 0 from rfl, hans]
    have h400n : 400 ∉ c.retryableStatus := by simpa using h400
    simp [retryable, h400n]
  have h := invoke_after_retries (c.EnableRetries maxRetries maxInterval) op t maxRetries 0 0
    (Nat.zero_le _) (fun j hj => absurd hj (Nat.not_lt_zero j)) hstop
  rw [show (0 : Nat) + 0 = 0 from rfl, hans] at h
  have hc : call (c.EnableRetries maxRetries maxInterval) op opts t
      = conclude op (Answer.response ⟨400, body⟩) 1 := by
    simp only [call, hvalid]
    simpa [PowervsV1.EnableRetries] using h
  refine ⟨by rw [hc, conclude_requests], by rw [hc, conclude_response], ?_⟩
  intro hs
  rw [hc]
  have hs2 : ¬ (400 = op.successCode) := fun e => hs e.symm
  cases body <;> simp [conclude, hs2]

theorem non_retryable_one_attempt_witness :
    (call ((defaultClient "https://dal.power-iaas.test.cloud.ibm.com").EnableRetries 4 30)
          PcloudV2VolumesPost [⟨"CloudInstanceID", true, some "testString"⟩]
          (fun _ => Answer.response ⟨400, Body.errorShaped "bad request" "400"⟩)).requests
        = 1 :=
  (non_retryable_one_attempt (defaultClient "https://dal.power-iaas.test.cloud.ibm.com")
    PcloudV2VolumesPost [⟨"CloudInstanceID", true, some "testString"⟩]
    (fun _ => Answer.response ⟨400, Body.errorShaped "bad request" "400"⟩) 4 30
    (Body.errorShaped "bad request" "400") (by decide) (by decide) (fun _ => rfl)).1

end powervsv1

namespace common

/-! ## Lemmas on separators and ASCII identifiers -/

theorem IsUpper_eq_asciiUpper (T : CaseTables) (c : Char) (h : c.toNat ≤ 0x7F) :
    IsUpper T c = asciiUpper c := by
  have h1 : c.toNat ≤ 0xFF := by omega
  have h2 : ¬ 0xC0 ≤ c.toNat := by omega
  have h3 : ¬ 0xD8 ≤ c.toNat := by omega
  simp [IsUpper, latin1Upper, asciiUpper, h1, h2, h3]

theorem IsUpper_of_asciiUpper (T : CaseTables) (c : Char) (h : asciiUpper c = true) :
    IsUpper T c = true := by
  have hc : c.toNat ≤ 0x7F := by
    simp [asciiUpper] at h
    omega
  rw [IsUpper_eq_asciiUpper T c hc, h]

theorem ToLower_of_not_asciiUpper (T : CaseTables) (c : Char) (h : c.toNat ≤ 0x7F)
    (hu : asciiUpper c = false) : ToLower T c = c := by
  have hn : ¬ (65 ≤ c.toNat ∧ c.toNat ≤ 90) := by
    intro ⟨h1, h2⟩
    simp [asciiUpper, h1, h2] at hu
  have hA : 'A'.toNat = 65 := by decide
  have hZ : 'Z'.toNat = 90 := by decide
  simp [ToLower, h, hA, hZ, hn]

theorem ascii_lower_dot_closed :
    ∀ n, n < 128 → ToLower CaseTables.none (Char.ofNat n) = '.' → n = 46 := by
  decide

/-- When the tables give no rune beyond ASCII the lower case form `.`, only `.`
is lowercased to `.`. -/
theorem ToLower_eq_dot (T : CaseTables)
    (hT : ∀ r : Char, 0x7F < r.toNat → T.toLowerCase r ≠ '.') (c : Char)
    (h : ToLower T c = '.') : c = '.' := by
  by_cases hc : c.toNat ≤ 0x7F
  · rw [ToLower_ascii T CaseTables.none c hc] at h
    have h46 := ascii_lower_dot_closed c.toNat (by omega) (by rwa [Char.ofNat_toNat])
    rw [← Char.ofNat_toNat c, h46]
  · have hc2 : 0x7F < c.toNat := by omega
    simp only [ToLower, hc, if_false] at h
    exact absurd h (hT c hc2)

theorem none_lower_not_dot :
    ∀ r : Char, 0x7F < r.toNat → CaseTables.none.toLowerCase r ≠ '.' := by
  intro r h e
  have e2 : r = '.' := e
  rw [e2] at h
  exact absurd h (by decide)

theorem insertDotsTail_append (T : CaseTables) (a b : List Char) :
    insertDotsTail T (a ++ b) = insertDotsTail T a ++ insertDotsTail T b := by
  induction a with
  | nil => simp [insertDotsTail]
  | cons c a ih => cases hU : IsUpper T c <;> simp [insertDotsTail, hU, ih]

theorem insertDotsTail_of_no_upper (T : CaseTables) (cs : List Char)
    (h : ∀ c ∈ cs, IsUpper T c = false) : insertDotsTail T cs = cs := by
  induction cs with
  | nil => simp [insertDotsTail]
  | cons c cs ih =>
    have hc := h c (List.mem_cons_self _ _)
    simp [insertDotsTail, hc, ih (fun d hd => h d (List.mem_cons_of_mem _ hd))]

theorem count_dot_insertDotsTail (T : CaseTables) (cs : List Char) :
    (lowercaseAll T (insertDotsTail T cs)).count '.'
      = (lowercaseAll T cs).count '.' + cs.countP (IsUpper T) := by
  induction cs with
  | nil => simp [insertDotsTail, lowercaseAll]
  | cons c cs ih =>
    unfold lowercaseAll at ih ⊢
    cases hU : IsUpper T c
    · simp [insertDotsTail, hU, List.count_cons, ih]
      omega
    · simp [insertDotsTail, hU, List.count_cons, ih, ToLower_dot]
      omega

theorem count_dot_lowercaseAll (T : CaseTables)
    (hT : ∀ r : Char, 0x7F < r.toNat → T.toLowerCase r ≠ '.') (cs : List Char) :
    (lowercaseAll T cs).count '.' = cs.count '.' := by
  induction cs with
  | nil => simp [lowercaseAll]
  | cons c cs ih =>
    unfold lowercaseAll at ih ⊢
    by_cases hc : c = '.'
    · subst hc
      simp [List.count_cons, ih, ToLower_dot]
    · have hl : ToLower T c ≠ '.' := fun e => hc (ToLower_eq_dot T hT c e)
      simp [List.count_cons, ih, hc, hl]

theorem filter_dot_insertDotsTail (T : CaseTables) (cs : List Char) :
    (lowercaseAll T (insertDotsTail T cs)).filter (fun c => c != '.')
      = (lowercaseAll T cs).filter (fun c => c != '.') := by
  induction cs with
  | nil => simp [insertDotsTail]
  | cons c cs ih =>
    unfold lowercaseAll at ih ⊢
    cases hU : IsUpper T c
    · simp [insertDotsTail, hU, List.filter_cons, ih]
    · simp [insertDotsTail, hU, List.filter_cons, ih, ToLower_dot]

/-- C23: for every operation identifier `s`, `pascalToLowerWithDot` inserts one
separator per internal upper case letter and nothing else: the length of
`pascalToLowerWithDot s` is the length of `s` plus the number of upper case
letters of `s` after the first position, and, the tables giving no rune beyond
ASCII the lower case form `.`, the number of `.` in the output is the number of
`.` in `s` plus that same count. -/
theorem pascalToLowerWithDot_counts (T : CaseTables) (s : String) :
    (pascalToLowerWithDot T s).length = s.length + s.data.tail.countP (IsUpper T) ∧
      ((∀ r : Char, 0x7F < r.toNat → T.toLowerCase r ≠ '.') →
        countDots (pascalToLowerWithDot T s)
          = countDots s + s.data.tail.countP (IsUpper T)) := by
  refine ⟨pascalToLowerWithDot_length T s, ?_⟩
  intro hT
  unfold countDots
  rw [pascalToLowerWithDot_data, ← count_dot_lowercaseAll T hT s.data]
  cases hs : s.data with
  | nil => simp [insertDots, lowercaseAll]
  | cons c cs =>
    have h := count_dot_insertDotsTail T cs
    unfold lowercaseAll at h ⊢
    simp only [insertDots, List.map_cons, List.count_cons, List.tail_cons, h]
    omega

theorem pascalToLowerWithDot_counts_witness :
    countDots (pascalToLowerWithDot CaseTables.none "Pcloud.V2VolumesPost")
      = countDots "Pcloud.V2VolumesPost"
        + "Pcloud.V2VolumesPost".data.tail.countP (IsUpper CaseTables.none) :=
  (pascalToLowerWithDot_counts CaseTables.none "Pcloud.V2VolumesPost").2 none_lower_not_dot

/-! ## Lemmas on words and fixed points -/

theorem concatWords_data (w : String) (ws : List String) :
    (concatWords (w :: ws)).data = w.data ++ (concatWords ws).data := by
  simp [concatWords]

theorem insertDotsTail_word (T : CaseTables) (w : String) (hw : isPascalWord w = true) :
    ∃ c rest, w.data = c :: rest ∧ asciiUpper c = true ∧
      (∀ d ∈ rest, d.toNat ≤ 0x7F ∧ asciiUpper d = false) ∧
      insertDotsTail T rest = rest ∧ lowercaseAll T rest = rest := by
  unfold isPascalWord at hw
  cases hd : w.data with
  | nil => simp [hd] at hw
  | cons c rest =>
    simp only [hd, Bool.and_eq_true, List.all_eq_true] at hw
    have hrest : ∀ d ∈ rest, d.toNat ≤ 0x7F ∧ asciiUpper d = false := by
      intro d hd2
      have := hw.2 d hd2
      simpa using this
    refine ⟨c, rest, rfl, hw.1, hrest, ?_, ?_⟩
    · apply insertDotsTail_of_no_upper
      intro d hd2
      rw [IsUpper_eq_asciiUpper T d (hrest d hd2).1]
      exact (hrest d hd2).2
    · unfold lowercaseAll
      conv => rhs; rw [← List.map_id rest]
      apply List.map_congr_left
      intro d hd2
      simpa using ToLower_of_not_asciiUpper T d (hrest d hd2).1 (hrest d hd2).2

/-- The words following the first one: each contributes a `.` and its
lowercased characters. -/
theorem joinWithDot_data (T : CaseTables) (ws : List String) :
    (∀ w ∈ ws, isPascalWord w = true) → ∀ first : String,
      (joinWithDot (first :: ws.map (lowercase T))).data
        = first.data ++ lowercaseAll T (insertDotsTail T (concatWords ws).data) := by
  induction ws with
  | nil => intro _ first; simp [joinWithDot, concatWords, insertDotsTail, lowercaseAll]
  | cons w ws ih =>
    intro hw first
    obtain ⟨c, rest, hd, hc, _, hrest, _⟩ := insertDotsTail_word T w (hw w (List.mem_cons_self _ _))
    have ih2 := ih (fun v hv => hw v (List.mem_cons_of_mem _ hv)) (lowercase T w)
    simp only [List.map_cons, joinWithDot, String.data_append, ih2, concatWords_data]
    rw [hd, List.cons_append, insertDotsTail, IsUpper_of_asciiUpper T c hc, if_pos rfl,
      insertDotsTail_append, hrest]
    simp [lowercase, lowercaseAll, hd, ToLower_dot]

theorem pascalToLowerWithDot_fixed (T : CaseTables) (s : String)
    (h : ∀ c ∈ s.data, c.toNat ≤ 0x7F ∧ asciiUpper c = false) :
    pascalToLowerWithDot T s = s := by
  apply String.ext
  rw [pascalToLowerWithDot_data]
  have hlow : lowercaseAll T s.data = s.data := by
    unfold lowercaseAll
    conv => rhs; rw [← List.map_id s.data]
    apply List.map_congr_left
    intro d hd
    simpa using ToLower_of_not_asciiUpper T d (h d hd).1 (h d hd).2
  cases hs : s.data with
  | nil => simp [insertDots, lowercaseAll]
  | cons c cs =>
    rw [hs] at h hlow
    have hcs : insertDotsTail T cs = cs := by
      apply insertDotsTail_of_no_upper
      intro d hd
      rw [IsUpper_eq_asciiUpper T d (h d (List.mem_cons_of_mem _ hd)).1]
      exact (h d (List.mem_cons_of_mem _ hd)).2
    rw [insertDots, hcs, hlow]

theorem pascalToLowerWithDot_ascii_out (T : CaseTables) (s : String)
    (h : ∀ c ∈ s.data, c.toNat ≤ 0x7F) :
    ∀ c ∈ (pascalToLowerWithDot T s).data, c.toNat ≤ 0x7F ∧ asciiUpper c = false := by
  intro c hc
  rw [pascalToLowerWithDot_data, lowercaseAll, List.mem_map] at hc
  obtain ⟨d, hd, rfl⟩ := hc
  have hd2 : d.toNat ≤ 0x7F := by
    rcases insertDots_mem T _ d hd with hd | hd
    · rw [hd]; decide
    · exact h d hd
  have hcl := ascii_lower_closed d.toNat (by omega)
  rw [Char.ofNat_toNat] at hcl
  rw [ToLower_ascii T CaseTables.none d hd2]
  refine ⟨hcl.1, ?_⟩
  rw [← IsUpper_eq_asciiUpper CaseTables.none _ hcl.1]
  exact hcl.2

theorem intersperse_upper (T : CaseTables) (cs : List Char) :
    (∀ c ∈ cs, asciiUpper c = true) → ∀ c0 : Char,
      lowercaseAll T (c0 :: insertDotsTail T cs)
        = (lowercaseAll T (c0 :: cs)).intersperse '.' := by
  induction cs with
  | nil => intro _ c0; simp [insertDotsTail, lowercaseAll]
  | cons c cs ih =>
    intro h c0
    have hc := IsUpper_of_asciiUpper T c (h c (List.mem_cons_self _ _))
    have ih2 := ih (fun d hd => h d (List.mem_cons_of_mem _ hd)) c
    unfold lowercaseAll at ih2 ⊢
    simp only [insertDotsTail, hc, if_true, List.map_cons, List.intersperse] at ih2 ⊢
    rw [ih2, ToLower_dot]

/-! ## The claims on the shape of the derived identifier -/

/-- C24: for every non-empty list of words, each one upper case ASCII letter
followed by ASCII characters that are not upper case letters,
`pascalToLowerWithDot` of the concatenation of the words is the lowercased
words joined by `.`. -/
theorem pascalToLowerWithDot_words (T : CaseTables) (ws : List String) (hne : ws ≠ [])
    (hw : ∀ w ∈ ws, isPascalWord w = true) :
    pascalToLowerWithDot T (concatWords ws) = joinWithDot (ws.map (lowercase T)) := by
  cases ws with
  | nil => exact absurd rfl hne
  | cons w ws =>
    apply String.ext
    obtain ⟨c, rest, hd, _, _, hrest, hlow⟩ :=
      insertDotsTail_word T w (hw w (List.mem_cons_self _ _))
    rw [List.map_cons, joinWithDot_data T ws (fun v hv => hw v (List.mem_cons_of_mem _ hv)),
      pascalToLowerWithDot_data, concatWords_data, hd, List.cons_append, insertDots,
      insertDotsTail_append, hrest]
    simp [lowercase, lowercaseAll, hd]

theorem pascalToLowerWithDot_words_witness :
    pascalToLowerWithDot CaseTables.none (concatWords ["Pcloud", "V2", "Volumes", "Post"])
      = joinWithDot (["Pcloud", "V2", "Volumes", "Post"].map (lowercase CaseTables.none)) :=
  pascalToLowerWithDot_words CaseTables.none ["Pcloud", "V2", "Volumes", "Post"]
    (by decide) (by decide)

/-- C25: for every `serviceName`, `serviceVersion`, `serviceName2`,
`serviceVersion2` and `operationId`, the two header maps
`GetSdkHeaders serviceName serviceVersion operationId` and
`GetSdkHeaders serviceName2 serviceVersion2 operationId` are equal: the service
name and the service version never influence the returned headers. -/
theorem GetSdkHeaders_ignores_service (T : CaseTables) (rt : Runtime)
    (serviceName serviceVersion serviceName2 serviceVersion2 operationId : String) :
    GetSdkHeaders T rt serviceName serviceVersion operationId
        = GetSdkHeaders T rt serviceName2 serviceVersion2 operationId ∧
      ∀ k : String,
        (GetSdkHeaders T rt serviceName serviceVersion operationId).get? k
          = (GetSdkHeaders T rt serviceName2 serviceVersion2 operationId).get? k := by
  have h : GetSdkHeaders T rt serviceName serviceVersion operationId
      = GetSdkHeaders T rt serviceName2 serviceVersion2 operationId := by
    rw [GetSdkHeaders_eq, GetSdkHeaders_eq]
  exact ⟨h, fun k => by rw [h]⟩

/-- C26: for every operation identifier `s` made only of ASCII characters,
`pascalToLowerWithDot` is idempotent:
`pascalToLowerWithDot (pascalToLowerWithDot s) = pascalToLowerWithDot s`. -/
theorem pascalToLowerWithDot_idempotent_ascii (T : CaseTables) (s : String)
    (h : ∀ c ∈ s.data, c.toNat ≤ 0x7F) :
    pascalToLowerWithDot T (pascalToLowerWithDot T s) = pascalToLowerWithDot T s :=
  pascalToLowerWithDot_fixed T _ (pascalToLowerWithDot_ascii_out T s h)

theorem pascalToLowerWithDot_idempotent_ascii_witness :
    pascalToLowerWithDot CaseTables.none
        (pascalToLowerWithDot CaseTables.none "InternalV1StorageRegionsThresholdsPut")
      = pascalToLowerWithDot CaseTables.none "InternalV1StorageRegionsThresholdsPut" :=
  pascalToLowerWithDot_idempotent_ascii CaseTables.none
    "InternalV1StorageRegionsThresholdsPut" (by decide)

/-- C27: for every operation identifier `s`, deleting every `.` from
`pascalToLowerWithDot s` gives the same string as deleting every `.` from the
character-wise lowercasing of `s`; when `s` holds no `.`, and the tables give
no rune beyond ASCII the lower case form `.`, deleting the separators from the
derived identifier gives exactly the lowercasing of `s`. -/
theorem deleteDots_pascalToLowerWithDot (T : CaseTables) (s : String) :
    deleteDots (pascalToLowerWithDot T s) = deleteDots (lowercase T s) ∧
      ((∀ r : Char, 0x7F < r.toNat → T.toLowerCase r ≠ '.') → (∀ c ∈ s.data, c ≠ '.') →
        deleteDots (pascalToLowerWithDot T s) = lowercase T s) := by
  have h1 : deleteDots (pascalToLowerWithDot T s) = deleteDots (lowercase T s) := by
    apply String.ext
    unfold deleteDots lowercase
    simp only [pascalToLowerWithDot_data]
    cases hs : s.data with
    | nil => simp [insertDots]
    | cons c cs =>
      have h := filter_dot_insertDotsTail T cs
      unfold lowercaseAll at h ⊢
      simp only [insertDots, List.map_cons, List.filter_cons, h]
  refine ⟨h1, ?_⟩
  intro hT hdot
  rw [h1]
  apply String.ext
  unfold deleteDots lowercase lowercaseAll
  simp only []
  rw [List.filter_eq_self]
  intro d hd
  rw [List.mem_map] at hd
  obtain ⟨c, hc, rfl⟩ := hd
  have : ToLower T c ≠ '.' := fun e => hdot c hc (ToLower_eq_dot T hT c e)
  simpa using this

theorem deleteDots_pascalToLowerWithDot_witness :
    deleteDots (pascalToLowerWithDot CaseTables.none "ServiceBrokerHealthHead")
      = lowercase CaseTables.none "ServiceBrokerHealthHead" :=
  (deleteDots_pascalToLowerWithDot CaseTables.none "ServiceBrokerHealthHead").2
    none_lower_not_dot (by decide)

/-- C28: for every string `s` made only of ASCII characters none of which is an
upper case letter `A` to `Z`, `pascalToLowerWithDot s = s`: no separator is
inserted and no character is changed. -/
theorem pascalToLowerWithDot_lower_fixed (T : CaseTables) (s : String)
    (h : ∀ c ∈ s.data, c.toNat ≤ 0x7F ∧ asciiUpper c = false) :
    pascalToLowerWithDot T s = s :=
  pascalToLowerWithDot_fixed T s h

theorem pascalToLowerWithDot_lower_fixed_witness :
    pascalToLowerWithDot CaseTables.none "pcloud.v2-volumes_post 42!"
        = "pcloud.v2-volumes_post 42!" ∧
      pascalToLowerWithDot CaseTables.none "" = "" :=
  ⟨pascalToLowerWithDot_lower_fixed CaseTables.none "pcloud.v2-volumes_post 42!" (by decide),
    pascalToLowerWithDot_lower_fixed CaseTables.none "" (by decide)⟩

/-- C29: for every non-empty operation identifier `s`, the first character of
`pascalToLowerWithDot s` is the lower case form of the first character of `s`;
the tables giving no rune beyond ASCII the lower case form `.`, the output
starts with `.` only when `s` starts with `.`, and a leading upper case letter
never produces a leading `.`. -/
theorem pascalToLowerWithDot_first (T : CaseTables) (s : String) (c : Char)
    (hc : s.data.head? = some c) :
    (pascalToLowerWithDot T s).data.head? = some (ToLower T c) ∧
      ((∀ r : Char, 0x7F < r.toNat → T.toLowerCase r ≠ '.') →
        ((pascalToLowerWithDot T s).data.head? = some '.' → c = '.') ∧
        (IsUpper T c = true → (pascalToLowerWithDot T s).data.head? ≠ some '.')) := by
  have h1 : (pascalToLowerWithDot T s).data.head? = some (ToLower T c) := by
    rw [pascalToLowerWithDot_data]
    cases hs : s.data with
    | nil => simp [hs] at hc
    | cons d ds =>
      simp only [hs, List.head?_cons, Option.some.injEq] at hc
      simp [insertDots, lowercaseAll, hc]
  refine ⟨h1, ?_⟩
  intro hT
  rw [h1]
  have hdot : ToLower T c = '.' → c = '.' := ToLower_eq_dot T hT c
  refine ⟨fun e => hdot (Option.some.inj e), ?_⟩
  intro hU e
  have hcd := hdot (Option.some.inj e)
  rw [hcd] at hU
  have : IsUpper T '.' = false := by
    rw [IsUpper_eq_asciiUpper T '.' (by decide)]; decide
  rw [this] at hU
  exact absurd hU (by decide)

theorem pascalToLowerWithDot_first_witness :
    (pascalToLowerWithDot CaseTables.none "ServiceBrokerHealthHead").data.head?
      = some (ToLower CaseTables.none 'S') :=
  (pascalToLowerWithDot_first CaseTables.none "ServiceBrokerHealthHead" 'S' (by decide)).1

/-- C30: runs of upper case letters are split letter by letter: for every
string `s` of `n ≥ 1` upper case ASCII letters, `pascalToLowerWithDot s` is the
`n` lowercased letters joined by `.`, of length `2n - 1`; `HTTP` gives
`h.t.t.p`. -/
theorem pascalToLowerWithDot_acronym (T : CaseTables) (s : String) (hne : s ≠ "")
    (h : ∀ c ∈ s.data, asciiUpper c = true) :
    pascalToLowerWithDot T s = ⟨(lowercaseAll T s.data).intersperse '.'⟩ ∧
      (pascalToLowerWithDot T s).length = 2 * s.length - 1 ∧
      pascalToLowerWithDot T "HTTP" = "h.t.t.p" := by
  have hex : pascalToLowerWithDot T "HTTP" = "h.t.t.p" := by
    rw [pascalToLowerWithDot_ascii T CaseTables.none _ (by decide)]
    decide
  have hcount : s.data.tail.countP (IsUpper T) = s.data.tail.length := by
    rw [List.countP_eq_length]
    intro c hc
    exact IsUpper_of_asciiUpper T c (h c (List.mem_of_mem_tail hc))
  have hlen := pascalToLowerWithDot_length T s
  rw [hcount] at hlen
  cases hs : s.data with
  | nil =>
    exact absurd (String.ext hs) hne
  | cons c cs =>
    refine ⟨?_, ?_, hex⟩
    · apply String.ext
      rw [pascalToLowerWithDot_data, hs, insertDots]
      exact intersperse_upper T cs (fun d hd => h d (by rw [hs]; exact List.mem_cons_of_mem _ hd)) c
    · rw [hs] at hlen
      simp only [String.length, hlen, hs, List.length_cons, List.tail_cons]
      omega

theorem pascalToLowerWithDot_acronym_witness :
    pascalToLowerWithDot CaseTables.none "HTTP"
        = ⟨(lowercaseAll CaseTables.none "HTTP".data).intersperse '.'⟩ ∧
      (pascalToLowerWithDot CaseTables.none "HTTP").length = 2 * "HTTP".length - 1 :=
  have h := pascalToLowerWithDot_acronym CaseTables.none "HTTP" (by decide) (by decide)
  ⟨h.1, h.2.1⟩

end common

namespace powervsv1

/-! ## The claims on the values the operation methods return -/

/-- What the end of a call hands back, whatever the answer it ends on: no result
next to an error, no result for an operation that declares none, a result and
an envelope on success for an operation that declares one, and no envelope
only on a transport failure. -/
theorem conclude_policy (op : Operation) (a : Answer) (n : Nat) :
    ((conclude op a n).err ≠ none → (conclude op a n).result = none) ∧
      (op.declaresResult = false → (conclude op a n).result = none) ∧
      (op.declaresResult = true → (conclude op a n).err = none →
        (conclude op a n).result ≠ none) ∧
      ((conclude op a n).err = none → (conclude op a n).response ≠ none) ∧
      ((conclude op a n).response = none →
        (conclude op a n).err = some SdkError.NetworkError) := by
  cases a with
  | networkFailure => simp [conclude]
  | response r =>
    cases r with
    | mk status body =>
      by_cases hs : status = op.successCode <;> cases hd : op.declaresResult <;>
        cases body <;> simp [conclude, hs, hd]

/-- A call is either refused by validation, before any request, or ends on an
answer of the transport. -/
theorem call_cases (c : PowervsV1) (op : Operation) (opts : RequestOptions) (t : Transport) :
    (∃ field, call c op opts t = ⟨none, none, some (SdkError.ValidationError field), 0⟩) ∨
      ∃ n, call c op opts t = conclude op (t n) (n + 1) := by
  unfold call
  cases missingRequired opts with
  | some field => exact Or.inl ⟨field, rfl⟩
  | none =>
    obtain ⟨n, _, he⟩ :=
      invoke_concludes c op t (if c.retriesEnabled then c.maxRetries else 0) 0
    exact Or.inr ⟨n, by simpa using he⟩

/-- C21, as stated, fails: on a transport that answers 200 with a well-formed
body `ServiceBrokerHealthHead` hands back the response envelope and a nil error
and no decoded result, where `ServiceBrokerAuthDeviceTokenPost`, on the same
client and transport, hands back all three. -/
theorem serviceBrokerHealthHead_response_and_error_only :
    call ((defaultClient "https://dal.power-iaas.test.cloud.ibm.com").EnableRetries 4 30)
        ServiceBrokerHealthHead [] (fun _ => Answer.response ⟨200, Body.wellFormed "health"⟩)
      = ⟨none, some ⟨200, Body.wellFormed "health"⟩, none, 1⟩ ∧
    call ((defaultClient "https://dal.power-iaas.test.cloud.ibm.com").EnableRetries 4 30)
        ServiceBrokerAuthDeviceTokenPost [⟨"DeviceCode", true, some "testString"⟩]
        (fun _ => Answer.response ⟨200, Body.wellFormed "health"⟩)
      = ⟨some "health", some ⟨200, Body.wellFormed "health"⟩, none, 1⟩ := by
  decide

/-- C21, amended: every operation method of the service client that declares a
decoded result returns three values, the decoded result, the response envelope
and the error, the result being present exactly when the error is nil;
`ServiceBrokerHealthHead`, like every method that declares no decoded result,
returns the response envelope and the error only.  For every method the
envelope is present when the error is nil, and it is absent only when
validation refused the call or the transport failed. -/
theorem call_propagation (c : PowervsV1) (op : Operation) (opts : RequestOptions)
    (t : Transport) :
    (op.declaresResult = true →
        ((call c op opts t).result ≠ none ↔ (call c op opts t).err = none)) ∧
      (op.declaresResult = false → (call c op opts t).result = none) ∧
      (call c ServiceBrokerHealthHead opts t).result = none ∧
      ((call c op opts t).err = none → (call c op opts t).response ≠ none) ∧
      ((call c op opts t).response = none →
        (call c op opts t).err = some SdkError.NetworkError ∨
          ∃ field, (call c op opts t).err = some (SdkError.ValidationError field)) := by
  have key : ∀ o : Operation,
      ((call c o opts t).err ≠ none → (call c o opts t).result = none) ∧
        (o.declaresResult = false → (call c o opts t).result = none) ∧
        (o.declaresResult = true → (call c o opts t).err = none →
          (call c o opts t).result ≠ none) ∧
        ((call c o opts t).err = none → (call c o opts t).response ≠ none) ∧
        ((call c o opts t).response = none →
          (call c o opts t).err = some SdkError.NetworkError ∨
            ∃ field, (call c o opts t).err = some (SdkError.ValidationError field)) := by
    intro o
    rcases call_cases c o opts t with ⟨field, h⟩ | ⟨n, h⟩
    · rw [h]
      refine ⟨fun _ => rfl, fun _ => rfl, fun _ he => ?_, fun he => ?_,
        fun _ => Or.inr ⟨field, rfl⟩⟩
      · simp at he
      · simp at he
    · rw [h]
      obtain ⟨p1, p2, p3, p4, p5⟩ := conclude_policy o (t n) (n + 1)
      exact ⟨p1, p2, p3, p4, fun hr => Or.inl (p5 hr)⟩
  obtain ⟨k1, k2, k3, k4, k5⟩ := key op
  refine ⟨fun hd => ⟨fun hr => ?_, fun he => k3 hd he⟩, k2, (key ServiceBrokerHealthHead).2.1 rfl,
    k4, k5⟩
  by_contra he
  exact hr (k1 he)

theorem call_propagation_witness :
    ((call (defaultClient "https://dal.power-iaas.test.cloud.ibm.com") PcloudV2VolumesPost
          [⟨"CloudInstanceID", true, some "testString"⟩]
          (fun _ => Answer.response ⟨404, Body.errorShaped "not found" "404"⟩)).result ≠ none ↔
        (call (defaultClient "https://dal.power-iaas.test.cloud.ibm.com") PcloudV2VolumesPost
          [⟨"CloudInstanceID", true, some "testString"⟩]
          (fun _ => Answer.response ⟨404, Body.errorShaped "not found" "404"⟩)).err = none) ∧
      (call (defaultClient "https://dal.power-iaas.test.cloud.ibm.com") ServiceBrokerHealthHead []
          (fun _ => Answer.networkFailure)).result = none :=
  ⟨(call_propagation (defaultClient "https://dal.power-iaas.test.cloud.ibm.com")
      PcloudV2VolumesPost [⟨"CloudInstanceID", true, some "testString"⟩]
      (fun _ => Answer.response ⟨404, Body.errorShaped "not found" "404"⟩)).1 rfl,
    (call_propagation (defaultClient "https://dal.power-iaas.test.cloud.ibm.com")
      ServiceBrokerHealthHead [] (fun _ => Answer.networkFailure)).2.1 rfl⟩

end powervsv1
